import Mathlib

/-!
Shallow embedding of the request-processing core of `icx-proxy` (`src/main.rs`)
and proofs about its behaviour.

Modelling conventions:
* Byte strings are `List Nat` (each entry one byte; overflow plays no role here).
* External library operations (SHA-256 from `sha2`, gzip/deflate decoding from
  `flate2`, CBOR parsing and certificate verification from `ic-agent`, base64
  decoding, URI parsing from `hyper`/`url`) are out of scope of the repository;
  they are passed in as explicit function parameters gathered in environment
  structures, so every theorem quantifies over their behaviour.
* Fallible Rust code returns `Except`/`Option`; a Rust `unwrap` panic is
  modelled as `Option.none` of the surrounding computation.
-/

namespace IcxProxy

/-- Source constant `MAX_HTTP_REQUEST_STREAM_CALLBACK_CALL_COUNT: i32 = 1000`. -/
def MAX_HTTP_REQUEST_STREAM_CALLBACK_CALL_COUNT : Nat := 1000

/-- Source constant `MAX_BYTES_SIZE_TO_DECOMPRESS: u64 = 10_000_000`. -/
def MAX_BYTES_SIZE_TO_DECOMPRESS : Nat := 10000000

/-! ## Body hashing (`decode_body`) -/

/-- Outcome of running a `flate2` streaming decoder over an input to exhaustion:
either the full decompressed output, or an error after emitting a prefix of
decompressed bytes. -/
inductive DecodeResult where
  | ok (bytes : List Nat)
  | error (pre : List Nat)
deriving DecidableEq

/-- The decompressed bytes a decoder produced before finishing or failing. -/
def DecodeResult.bytes : DecodeResult → List Nat
  | .ok b => b
  | .error p => p

/-- External byte-level operations used by `decode_body`: `sha2::Sha256` and the
`flate2` gzip/deflate decoders. -/
structure Codec where
  sha256 : List Nat → List Nat
  gzipDecode : List Nat → DecodeResult
  deflateDecode : List Nat → DecodeResult

/-- Semantics of `decoder.take(max).read_to_end(..)`: reads decompressed bytes
up to `max`; if the decoder fails strictly before `max` bytes were produced the
read errors (`none`); once `max` bytes are available the limiter stops reading
and any later decoder failure is never observed. -/
def readTake (max : Nat) : DecodeResult → Option (List Nat)
  | .ok bytes => some (bytes.take max)
  | .error pre => if max ≤ pre.length then some (pre.take max) else none

/-- Source function `decode_body(body: &[u8], encoding: Option<String>) -> [u8; 32]`.
The source calls `.unwrap()` on the capped `read_to_end`, so a decoder error
is a panic: modelled as `none`. -/
def decode_body (C : Codec) (body : List Nat) (encoding : Option String) :
    Option (List Nat) :=
  match encoding with
  | some enc =>
    match enc with
    | "gzip" => (readTake MAX_BYTES_SIZE_TO_DECOMPRESS (C.gzipDecode body)).map C.sha256
    | "deflate" => (readTake MAX_BYTES_SIZE_TO_DECOMPRESS (C.deflateDecode body)).map C.sha256
    | _ => some (C.sha256 body)
  | none => some (C.sha256 body)

/-! ## Headers data and verification (`validate`, `validate_body`) -/

/-- Source struct `HeadersData`: each of `certificate` and `tree` is absent (`none`),
present and base64-decoded (`some (.ok bytes)`), or present with a decode-error
marker (`some (.error ())`). -/
structure HeadersData where
  certificate : Option (Except Unit (List Nat))
  tree : Option (Except Unit (List Nat))
  encoding : Option String

/-- External operations used by `validate_body`, parameterised by the opaque
library types `P` (principal), `C` (parsed certificate), `T` (parsed hash tree):
CBOR parsing (`serde_cbor::from_slice`, error rendered to its display string),
`agent.verify`, `lookup_value` at `["canister", id, "certified_data"]`,
`tree.digest()`, and `tree.lookup_path` (`some` exactly for
`LookupResult::Found`). -/
structure VerifyEnv (P C T : Type) where
  cborCert : List Nat → Except String C
  cborTree : List Nat → Except String T
  agentVerify : C → Except Unit Unit
  lookupCertifiedData : C → P → Except Unit (List Nat)
  treeDigest : T → List Nat
  treeLookup : T → List String → Option (List Nat)

/-- Source function `validate_body(certificates, canister_id, agent, uri, body_sha, logger)
-> anyhow::Result<bool>`. -/
def validate_body {P C T : Type} (E : VerifyEnv P C T)
    (certificate tree : List Nat) (canister_id : P) (uriPath : String)
    (body_sha : List Nat) : Except String Bool :=
  match E.cborCert certificate with
  | .error e => .error e
  | .ok cert =>
    match E.cborTree tree with
    | .error e => .error e
    | .ok t =>
      match E.agentVerify cert with
      | .error _ => .ok false
      | .ok _ =>
        match E.lookupCertifiedData cert canister_id with
        | .error _ => .ok false
        | .ok witness =>
          if witness ≠ E.treeDigest t then .ok false
          else
            match E.treeLookup t ["http_assets", uriPath] with
            | some tree_sha => .ok (decide (body_sha = tree_sha))
            | none =>
              match E.treeLookup t ["http_assets", "/index.html"] with
              | some tree_sha => .ok (decide (body_sha = tree_sha))
              | none => .ok false

/-- Source function `validate(headers_data, canister_id, agent, uri, response_body, logger)
-> Result<(), String>`. The outer `Option` records the panic of `decode_body`
(`none` when the decompressor errors). The `skip_body_verification` cargo
feature is off (default build), so an `Err` from the match is returned as is. -/
def validate {P C T : Type} (Cd : Codec) (E : VerifyEnv P C T)
    (headers_data : HeadersData) (canister_id : P) (uriPath : String)
    (response_body : List Nat) : Option (Except String Unit) :=
  match decode_body Cd response_body headers_data.encoding with
  | none => none
  | some body_sha =>
    some (match headers_data.certificate, headers_data.tree with
      | some (.ok certificate), some (.ok tree) =>
        match validate_body E certificate tree canister_id uriPath body_sha with
        | .ok true => .ok ()
        | .ok false => .error "Body does not pass verification"
        | .error e => .error ("Certificate validation failed: " ++ e)
      | some _, _ => .error "Body does not pass verification"
      | none, some _ => .error "Body does not pass verification"
      | none, none => .ok ())

/-- Body of the HTTP response the gateway sends: either the canister body
bytes, or an error string. -/
inductive RespBody where
  | bytes (b : List Nat)
  | text (s : String)
deriving DecidableEq

/-- Non-streaming tail of `forward_request` (lines 433-448 of `main.rs`): run
`validate`; on `Err` answer 500 with the reason as body, on `Ok` answer the
canister's status with its body. `none` when `validate` panics. -/
def forward_response {P C T : Type} (Cd : Codec) (E : VerifyEnv P C T)
    (headers_data : HeadersData) (canister_id : P) (uriPath : String)
    (status : Nat) (body : List Nat) : Option (Nat × RespBody) :=
  match validate Cd E headers_data canister_id uriPath body with
  | none => none
  | some (.error e) => some (500, .text e)
  | some (.ok _) => some (status, .bytes body)

/-! ## Header extraction (`extract_headers_data`) -/

/-- ASCII lower-casing of one character, as Rust's `to_ascii_lowercase`. -/
def asciiLowerChar (c : Char) : Char :=
  if 'A' ≤ c ∧ c ≤ 'Z' then Char.ofNat (c.toNat + 32) else c

/-- Rust `str::eq_ignore_ascii_case`. -/
def eq_ignore_ascii_case (a b : String) : Bool :=
  a.data.map asciiLowerChar == b.data.map asciiLowerChar

/-- Split a character list at the LAST occurrence of the two-character
separator `=:`, returning the parts before and after it. The last occurrence
realises the greedy semantics of the leading `(.*)` in the regex
`^(.*)=:(.*):$`. -/
def lastSplitEqColon : List Char → Option (List Char × List Char)
  | [] => none
  | c :: rest =>
    match lastSplitEqColon rest with
    | some (a, b) => some (c :: a, b)
    | none =>
      if c = '=' ∧ rest.head? = some ':' then some ([], rest.tail) else none

/-- Semantics of the source regex match on a component: the matched string contains no
newline (regex `.` does not match one), ends in `:`, and its remainder
contains `=:`; the first group is greedy. Returns `(name, b64_value)`. -/
def parseField (s : String) : Option (String × String) :=
  if s.data.contains '\n' then none
  else
    match s.data.reverse with
    | ':' :: revRest =>
      match lastSplitEqColon revRest.reverse with
      | some (a, b) => some (⟨a⟩, ⟨b⟩)
      | none => none
    | _ => none

/-- Source function `decode_hash_tree(name, value, logger) -> Result<Vec<u8>, ()>`, with the
external `base64::decode` passed as `b64` (the `name` argument only feeds the
warning log). -/
def decode_hash_tree (b64 : String → Option (List Nat)) (value : Option String) :
    Except Unit (List Nat) :=
  match value with
  | some tree =>
    match b64 tree with
    | some bytes => .ok bytes
    | none => .error ()
  | none => .error ()

/-- The duplicate-field policy of `extract_headers_data`: the `match` on
`(headers_data.certificate, bytes)`, textually repeated in the source for
`tree`. -/
def dupStep (old : Option (Except Unit (List Nat))) (bytes : Except Unit (List Nat)) :
    Option (Except Unit (List Nat)) :=
  match old, bytes with
  | none, b => some b
  | some (.ok c), .ok _ => some (.ok c)
  | some (.ok c), .error _ => some (.ok c)
  | some (.error _), b => some b

/-- Processing of one comma-separated component of an `IC-Certificate` value. -/
def processField (b64 : String → Option (List Nat)) (hd : HeadersData)
    (field : String) : HeadersData :=
  match parseField field.trim with
  | none => hd
  | some (name, b64_value) =>
    let bytes := decode_hash_tree b64 (some b64_value)
    if name = "certificate" then { hd with certificate := dupStep hd.certificate bytes }
    else if name = "tree" then { hd with tree := dupStep hd.tree bytes }
    else hd

/-- Processing of one response header by `extract_headers_data`. -/
def processHeader (b64 : String → Option (List Nat)) (hd : HeadersData)
    (header : String × String) : HeadersData :=
  if eq_ignore_ascii_case header.1 "IC-CERTIFICATE" then
    (header.2.splitOn ",").foldl (processField b64) hd
  else if eq_ignore_ascii_case header.1 "CONTENT-ENCODING" then
    { hd with encoding := some header.2.trim }
  else hd

/-- Source function `extract_headers_data(headers: &[HeaderField], logger) -> HeadersData`. -/
def extract_headers_data (b64 : String → Option (List Nat))
    (headers : List (String × String)) : HeadersData :=
  headers.foldl (processHeader b64)
    { certificate := none, tree := none, encoding := none }

/-- Decode results of the `certificate=` components of one `IC-Certificate`
header value, in order of appearance. -/
def certComponents (b64 : String → Option (List Nat)) (value : String) :
    List (Except Unit (List Nat)) :=
  (value.splitOn ",").filterMap fun f =>
    match parseField f.trim with
    | some (n, v) => if n = "certificate" then some (decode_hash_tree b64 (some v)) else none
    | none => none

/-- Decode results of the `tree=` components of one `IC-Certificate` header
value, in order of appearance. -/
def treeComponents (b64 : String → Option (List Nat)) (value : String) :
    List (Except Unit (List Nat)) :=
  (value.splitOn ",").filterMap fun f =>
    match parseField f.trim with
    | some (n, v) => if n = "tree" then some (decode_hash_tree b64 (some v)) else none
    | none => none

/-- Whether a decode result is a success. -/
def isOkE : Except Unit (List Nat) → Bool
  | .ok _ => true
  | .error _ => false

/-- The value the duplicate policy keeps, as the spec words it: the first
successfully decoded value if any exists, otherwise the last value seen (a
later value replaces an earlier decode-error). -/
def retained (rs : List (Except Unit (List Nat))) : Option (Except Unit (List Nat)) :=
  match rs.find? isOkE with
  | some r => some r
  | none => rs.getLast?

/-! ## Streaming assembler (streaming arm of `forward_request`) -/

/-- How a streamed body ends. -/
inductive StreamEnd where
  | aborted
  | sendFailed
  | closed
  | callbackError
deriving DecidableEq

/-- The streaming callback loop. `cb` is the external
`http_request_stream_callback` call (`.error` for a failed call); `sendOk n`
tells whether the `n`-th chunk send to the client succeeds. The source
increments `count` and aborts once `count > MAX_..._COUNT`, i.e. after `MAX`
calls; `fuel` is the number of calls still allowed, `calls` the number made,
`sent` the chunks already written to the body stream. -/
def streamGo {T : Type} (cb : T → Except Unit (List Nat × Option T))
    (sendOk : Nat → Bool) :
    Nat → T → Nat → List (List Nat) → List (List Nat) × Nat × StreamEnd
  | 0, _, calls, sent => (sent, calls, .aborted)
  | fuel + 1, t, calls, sent =>
    match cb t with
    | .error _ => (sent, calls + 1, .callbackError)
    | .ok (body, token) =>
      if sendOk sent.length then
        match token with
        | some next_token => streamGo cb sendOk fuel next_token (calls + 1) (sent ++ [body])
        | none => (sent ++ [body], calls + 1, .closed)
      else (sent, calls + 1, .sendFailed)

/-- The spawned streaming task of `forward_request`, from the first callback
invocation on. -/
def streamLoop {T : Type} (cb : T → Except Unit (List Nat × Option T))
    (sendOk : Nat → Bool) (token : T) : List (List Nat) × Nat × StreamEnd :=
  streamGo cb sendOk MAX_HTTP_REQUEST_STREAM_CALLBACK_CALL_COUNT token 0 []

/-! ## Canister-ID resolution -/

/-- The only part of a parsed URI `resolve_canister_id_from_uri` reads. -/
structure UriQ where
  query : Option String

/-- External parsing operations used during resolution: `Uri::from_str` plus
`.host()` on a hostname, `url::form_urlencoded::parse`,
`Principal::from_text(..).ok()`, and `hyper::Uri::from_str` on a referer. -/
structure ResolveEnv (P : Type) where
  uriHost : String → Option String
  parseQuery : String → List (String × String)
  fromText : String → Option P
  parseUri : String → Option UriQ

/-- The parts of an incoming request the resolver reads. For the two headers,
the outer `Option` is presence and the inner one success of
`HeaderValue::to_str`. -/
structure Req where
  hostHeader : Option (Option String)
  uri : UriQ
  refererHeader : Option (Option String)

/-- Source function `resolve_canister_id_from_hostname(hostname, dns_canister_config)`.
The configured lookup (`resolve_canister_id_from_split_hostname`, defined in
the out-of-scope `config` module) is passed in as `dns`. The Rust slice
patterns `[.., maybe_canister_id, "localhost"]` / `[maybe_canister_id, ..]`
are rendered through `List.reverse`. -/
def resolve_canister_id_from_hostname {P : Type} (E : ResolveEnv P)
    (hostname : String) (dns : List String → Option P) : Option P :=
  match E.uriHost hostname with
  | none => none
  | some host =>
    let split_hostname := host.splitOn "."
    match dns split_hostname with
    | some principal => some principal
    | none =>
      match split_hostname.reverse with
      | "localhost" :: maybe_canister_id :: _ => E.fromText maybe_canister_id
      | _ =>
        match split_hostname with
        | maybe_canister_id :: _ => E.fromText maybe_canister_id
        | [] => none

/-- Source function `resolve_canister_id_from_uri(url: &hyper::Uri)`. -/
def resolve_canister_id_from_uri {P : Type} (E : ResolveEnv P) (url : UriQ) :
    Option P :=
  match url.query with
  | none => none
  | some q =>
    match (E.parseQuery q).find? (fun nv => nv.1 = "canisterId") with
    | none => none
    | some nv => E.fromText nv.2

/-- Source function `resolve_canister_id(request, dns_canister_config)`. -/
def resolve_canister_id {P : Type} (E : ResolveEnv P)
    (dns : List String → Option P) (request : Req) : Option P :=
  let fromHost : Option P :=
    match request.hostHeader with
    | some (some host) => resolve_canister_id_from_hostname E host dns
    | _ => none
  match fromHost with
  | some canister_id => some canister_id
  | none =>
    match resolve_canister_id_from_uri E request.uri with
    | some canister_id => some canister_id
    | none =>
      match request.refererHeader with
      | some (some referer) =>
        match E.parseUri referer with
        | some referer_uri => resolve_canister_id_from_uri E referer_uri
        | none => none
      | _ => none

/-- The hardcoded hostname fallback as the claim words it: parse the label
before a trailing `localhost` when such a label exists, otherwise parse the
leading label. -/
def hostFallbackSpec {P : Type} (E : ResolveEnv P) (labels : List String) :
    Option P :=
  if labels.getLast? = some "localhost" ∧ labels.dropLast ≠ [] then
    match labels.dropLast.getLast? with
    | some m => E.fromText m
    | none => none
  else
    match labels.head? with
    | some m => E.fromText m
    | none => none

/-- Host-header source as the claim words it: configured lookup first, then
the hardcoded fallback. -/
def hostSourceSpec {P : Type} (E : ResolveEnv P) (dns : List String → Option P)
    (request : Req) : Option P :=
  match request.hostHeader with
  | some (some host) =>
    match E.uriHost host with
    | none => none
    | some h =>
      (dns (h.splitOn ".")).orElse fun _ => hostFallbackSpec E (h.splitOn ".")
  | _ => none

/-- URI-query source as the claim words it. -/
def uriSourceSpec {P : Type} (E : ResolveEnv P) (request : Req) : Option P :=
  resolve_canister_id_from_uri E request.uri

/-- Referer source as the claim words it. -/
def refererSourceSpec {P : Type} (E : ResolveEnv P) (request : Req) : Option P :=
  match request.refererHeader with
  | some (some referer) => (E.parseUri referer).bind (resolve_canister_id_from_uri E)
  | _ => none

/-- The claim's description of resolution: three sources tried in order,
first success wins. -/
def resolve_canister_id_spec {P : Type} (E : ResolveEnv P)
    (dns : List String → Option P) (request : Req) : Option P :=
  (hostSourceSpec E dns request).orElse fun _ =>
    (uriSourceSpec E request).orElse fun _ => refererSourceSpec E request

/-! ## Request dispatch (`handle_request`) -/

/-- Rust `str::starts_with`. -/
def starts_with (s p : String) : Bool := p.data.isPrefixOf s.data

/-- Source function `unable_to_fetch_root_key()`: status and body. -/
def unable_to_fetch_root_key : Nat × String := (500, "Unable to fetch root key")

/-- Source function `not_found()`: status and body. -/
def not_found : Nat × String := (404, "Not found")

/-- Source function `handle_request(...)`, with the external outcomes abstracted:
`apiResult`/`proxyResult` are the reverse-proxied responses, `fetchOk` the
result of `agent.fetch_root_key()` on this request's fresh agent,
`forwardResult` the response `forward_request` produces. Returns the response
paired with the number of root-key fetch attempts made; the fetch, when it
happens, precedes `forward_request`. -/
def handle_request (request_uri_path : String) (proxy_url : Option String)
    (fetch_root_key : Bool) (fetchOk : Bool)
    (apiResult proxyResult forwardResult : Nat × String) :
    (Nat × String) × Nat :=
  if starts_with request_uri_path "/api/" then (apiResult, 0)
  else if starts_with request_uri_path "/_/" && !starts_with request_uri_path "/_/raw" then
    match proxy_url with
    | some _ => (proxyResult, 0)
    | none => (not_found, 0)
  else
    if fetch_root_key then
      if fetchOk then (forwardResult, 1) else (unable_to_fetch_root_key, 1)
    else (forwardResult, 0)

/-! ## Reverse-proxy header handling -/

/-- Rust `str::to_ascii_lowercase`. -/
def to_ascii_lowercase (s : String) : String := ⟨s.data.map asciiLowerChar⟩

/-- Source function `is_hop_header(name: &str) -> bool`. -/
def is_hop_header (name : String) : Bool :=
  to_ascii_lowercase name == "connection"
    || to_ascii_lowercase name == "keep-alive"
    || to_ascii_lowercase name == "proxy-authenticate"
    || to_ascii_lowercase name == "proxy-authorization"
    || to_ascii_lowercase name == "te"
    || to_ascii_lowercase name == "trailers"
    || to_ascii_lowercase name == "transfer-encoding"
    || to_ascii_lowercase name == "upgrade"

/-- Model of `hyper::HeaderMap`: association list from a header name to its
value list; `hyper` keeps names unique, lower-cased, and value lists
non-empty. -/
abbrev HeaderMap := List (String × List String)

/-- Semantics of `HeaderMap::iter`: every name-value pair, names repeated per value. -/
def iterPairs (hm : HeaderMap) : List (String × String) :=
  hm.flatMap fun kv => kv.2.map fun v => (kv.1, v)

/-- Semantics of `HeaderMap::insert`: all previous values of the name are dropped. -/
def insertH (hm : HeaderMap) (k v : String) : HeaderMap :=
  if hm.any (fun kv => kv.1 = k) then
    hm.map fun kv => if kv.1 = k then (k, [v]) else kv
  else hm ++ [(k, [v])]

/-- Lookup of all values of a name. -/
def lookupH (hm : HeaderMap) (k : String) : Option (List String) :=
  (hm.find? fun kv => kv.1 = k).map fun kv => kv.2

/-- Source function `remove_hop_headers(headers) -> HeaderMap`. -/
def remove_hop_headers (headers : HeaderMap) : HeaderMap :=
  (iterPairs headers).foldl
    (fun result kv => if is_hop_header kv.1 then result else insertH result kv.1 kv.2) []

/-- Header part of `fn create_proxied_request`: strip hop-by-hop headers,
then append the client IP to `x-forwarded-for` (`Entry::Vacant` inserts the
IP, `Entry::Occupied` reads the entry's first value and replaces the entry
with `"<old>, <ip>"`). -/
def create_proxied_request (client_ip : String) (headers : HeaderMap) : HeaderMap :=
  let headers := remove_hop_headers headers
  match (lookupH headers "x-forwarded-for").bind List.head? with
  | none => insertH headers "x-forwarded-for" client_ip
  | some old => insertH headers "x-forwarded-for" (old ++ ", " ++ client_ip)

/-! ## Concrete library instances used to evaluate the theorems -/

/-- A codec whose decoders succeed on everything. -/
def Cd0 : Codec :=
  ⟨fun _ => [], fun b => .ok b, fun b => .ok b⟩

/-- A codec whose decoders fail immediately. -/
def Cd3 : Codec :=
  ⟨fun _ => [], fun _ => .error [], fun _ => .error []⟩

/-- A codec whose gzip decoder produces 10,000,001 bytes. -/
def Cd4 : Codec :=
  ⟨fun _ => List.replicate 32 0, fun _ => .ok (List.replicate 10000001 7), fun _ => .ok []⟩

/-- A verification environment whose CBOR parsers fail. -/
def E0 : VerifyEnv Unit Unit Unit :=
  ⟨fun _ => .error "boom", fun _ => .error "boom", fun _ => .ok (),
   fun _ _ => .error (), fun _ => [], fun _ _ => none⟩

/-- A verification environment whose CBOR parsers succeed but whose
certificate signature verification fails. -/
def E10 : VerifyEnv Unit Unit Unit :=
  ⟨fun _ => .ok (), fun _ => .ok (), fun _ => .error (),
   fun _ _ => .ok [], fun _ => [], fun _ _ => none⟩

/-- A verification environment where everything verifies and the tree has one
leaf `[1]` at `["http_assets", "/p"]`. -/
def E2 : VerifyEnv Unit Unit Unit :=
  ⟨fun _ => .ok (), fun _ => .ok (), fun _ => .ok (), fun _ _ => .ok [],
   fun _ => [], fun _ p => if p = ["http_assets", "/p"] then some [1] else none⟩

/-- Headers with a certificate present, no tree, no encoding. -/
def hdCertOnly : HeadersData := ⟨some (.ok []), none, none⟩

/-- Headers with both fields present and decoded, no encoding. -/
def hdBoth : HeadersData := ⟨some (.ok []), some (.ok []), none⟩

/-- Headers with neither field and a gzip encoding. -/
def hdGzip : HeadersData := ⟨none, none, some "gzip"⟩

/-- A streaming callback that always returns a chunk and a next token. -/
def cbAll : Unit → Except Unit (List Nat × Option Unit) := fun _ => .ok ([7], some ())

/-- The last value carried by key `k` in a pair list. -/
def lastValueOf (ps : List (String × String)) (k : String) : Option String :=
  ((ps.filter fun kv => kv.1 = k).getLast?).map fun kv => kv.2

/-- A base64 decoder accepting only the string "AA". -/
def b64d : String → Option (List Nat) := fun s => if s = "AA" then some [0] else none

/-- A resolution environment where every parse fails. -/
def E7 : ResolveEnv Unit := ⟨fun _ => none, fun _ => [], fun _ => none, fun _ => none⟩

/-- A request with no headers and no query. -/
def req7 : Req := ⟨none, ⟨none⟩, none⟩

end IcxProxy

/-! # Theorems -/

namespace IcxProxy

/-- The successful branches of `validate_body` never produce an `Except.error`:
once both CBOR parses succeed the result is `.ok` of a boolean. -/
theorem validate_body_no_error {P C T : Type} (E : VerifyEnv P C T)
    (cb tb : List Nat) (cid : P) (path : String) (sha : List Nat)
    (c : C) (t : T)
    (hc : E.cborCert cb = .ok c) (ht : E.cborTree tb = .ok t) :
    ∃ b, validate_body E cb tb cid path sha = .ok b := by
  rcases hv : E.agentVerify c with e | u
  · exact ⟨false, by unfold validate_body; simp [hc, ht, hv]⟩
  · rcases hl : E.lookupCertifiedData c cid with e | w
    · exact ⟨false, by unfold validate_body; simp [hc, ht, hv, hl]⟩
    · by_cases hwd : w = E.treeDigest t
      · rcases hp : E.treeLookup t ["http_assets", path] with _ | leaf
        · rcases hq : E.treeLookup t ["http_assets", "/index.html"] with _ | leaf
          · exact ⟨false, by unfold validate_body; simp [hc, ht, hv, hl, hp, hq, hwd]⟩
          · exact ⟨decide (sha = leaf),
              by unfold validate_body; simp [hc, ht, hv, hl, hp, hq, hwd]⟩
        · exact ⟨decide (sha = leaf),
            by unfold validate_body; simp [hc, ht, hv, hl, hp, hwd]⟩
      · exact ⟨false, by unfold validate_body; simp [hc, ht, hv, hl, hwd]⟩

/-- C1: on the non-streaming path, whenever the body digest computation
returns (no decompression panic), `validate` succeeds when both `certificate`
and `tree` are absent, and rejects with exactly the string
"Body does not pass verification" whenever exactly one of the two is present,
or either present field carries a decode-error marker, regardless of the
contents of the other field. -/
theorem validate_presence_matrix {P C T : Type} (Cd : Codec) (E : VerifyEnv P C T)
    (hd : HeadersData) (cid : P) (path : String) (body : List Nat)
    (hbody : (decode_body Cd body hd.encoding).isSome) :
    (hd.certificate = none → hd.tree = none →
      validate Cd E hd cid path body = some (.ok ())) ∧
    (((hd.certificate.isSome ∧ hd.tree = none) ∨
        (hd.certificate = none ∧ hd.tree.isSome) ∨
        hd.certificate = some (.error ()) ∨ hd.tree = some (.error ())) →
      validate Cd E hd cid path body =
        some (.error "Body does not pass verification")) := by
  obtain ⟨sha, hsha⟩ := Option.isSome_iff_exists.mp hbody
  constructor
  · intro h1 h2
    simp only [validate, hsha, h1, h2]
  · intro h
    rcases hc : hd.certificate with _ | c
    · rcases ht : hd.tree with _ | t
      · exfalso
        rcases h with ⟨hs, _⟩ | ⟨_, hs⟩ | hs | hs <;> simp [hc, ht] at hs
      · rcases t with t | t <;> simp only [validate, hsha, hc, ht]
    · rcases ht : hd.tree with _ | t
      · rcases c with c | c <;> simp only [validate, hsha, hc, ht]
      · rcases c with c | c
        · rcases t with t | t <;> simp only [validate, hsha, hc, ht]
        · rcases t with t | t
          · simp only [validate, hsha, hc, ht]
          · exfalso
            rcases h with ⟨_, hs⟩ | ⟨hs, _⟩ | hs | hs <;> simp [hc, ht] at hs

/-- Witness for C1 at a concrete input: certificate present, tree absent. -/
theorem validate_presence_matrix_witness :
    validate Cd0 E0 hdCertOnly () "/" [] =
      some (.error "Body does not pass verification") :=
  (validate_presence_matrix Cd0 E0 hdCertOnly () "/" [] rfl).2
    (Or.inl ⟨rfl, rfl⟩)

/-- C2: with both fields decoded, a verified certificate and a certified-data
value matching the tree root digest, verification succeeds iff the body
digest equals the tree leaf at `["http_assets", path]`, or, when that path is
not found, the leaf at `["http_assets", "/index.html"]`; when neither is
found the response is rejected. -/
theorem validate_body_lookup {P C T : Type} (E : VerifyEnv P C T)
    (cb tb : List Nat) (cid : P) (path : String) (sha : List Nat)
    (c : C) (t : T)
    (hc : E.cborCert cb = .ok c) (ht : E.cborTree tb = .ok t)
    (hv : E.agentVerify c = .ok ())
    (hw : E.lookupCertifiedData c cid = .ok (E.treeDigest t)) :
    (validate_body E cb tb cid path sha = .ok true ↔
      (∃ leaf, E.treeLookup t ["http_assets", path] = some leaf ∧ sha = leaf) ∨
      (E.treeLookup t ["http_assets", path] = none ∧
        ∃ leaf, E.treeLookup t ["http_assets", "/index.html"] = some leaf ∧
          sha = leaf)) ∧
    (E.treeLookup t ["http_assets", path] = none →
      E.treeLookup t ["http_assets", "/index.html"] = none →
      validate_body E cb tb cid path sha = .ok false) := by
  unfold validate_body
  simp only [hc, ht, hv, hw, ne_eq, not_true_eq_false, if_false]
  constructor
  · cases hl : E.treeLookup t ["http_assets", path] with
    | some leaf => simp [hl]
    | none =>
      cases hl2 : E.treeLookup t ["http_assets", "/index.html"] with
      | some leaf => simp [hl, hl2]
      | none => simp [hl, hl2]
  · intro hl hl2
    simp [hl, hl2]

/-- Witness for C2 at a concrete input: the leaf at the request path matches
the digest. -/
theorem validate_body_lookup_witness :
    validate_body E2 [] [] () "/p" [1] = .ok true :=
  ((validate_body_lookup E2 [] [] () "/p" [1] () () rfl rfl rfl rfl).1).mpr
    (Or.inl ⟨[1], rfl, rfl⟩)

/-- C3 counterexample: at this concrete input the gzip decoder reports an
error inside the cap, and the non-streaming path produces no HTTP response at
all (the `unwrap` panic), not a 500 response carrying a verification-failure
reason. -/
theorem decode_error_no_500_counterexample :
    forward_response Cd3 E0 hdGzip () "/" 200 [0] = none ∧
    ¬ ∃ e, forward_response Cd3 E0 hdGzip () "/" 200 [0] = some (500, .text e) := by
  constructor
  · rfl
  · rintro ⟨e, h⟩
    rw [show forward_response Cd3 E0 hdGzip () "/" 200 [0] = none from rfl] at h
    exact Option.noConfusion h

/-- C3 amended: when the extracted encoding is gzip or deflate and the
underlying decoder reports an error before the decompression cap is reached,
the `unwrap` in `decode_body` panics: the non-streaming path yields no HTTP
response at all, rather than a 500 validation failure from the verifier. -/
theorem decode_error_panics {P C T : Type} (Cd : Codec) (E : VerifyEnv P C T)
    (hd : HeadersData) (cid : P) (path : String) (status : Nat)
    (body : List Nat) (enc : String)
    (henc : hd.encoding = some enc)
    (hgz : enc = "gzip" ∨ enc = "deflate")
    (herr : readTake MAX_BYTES_SIZE_TO_DECOMPRESS
      (if enc = "gzip" then Cd.gzipDecode body else Cd.deflateDecode body) = none) :
    forward_response Cd E hd cid path status body = none := by
  have hnone : decode_body Cd body hd.encoding = none := by
    rw [henc]
    rcases hgz with h | h <;> subst h
    · rw [if_pos rfl] at herr
      simp [decode_body, herr]
    · rw [if_neg (by decide)] at herr
      simp [decode_body, herr]
  simp only [forward_response, validate, hnone]

/-- Witness for the amended C3 at a concrete input. -/
theorem decode_error_panics_witness :
    forward_response Cd3 E0 hdGzip () "/" 201 [9] = none :=
  decode_error_panics Cd3 E0 hdGzip () "/" 201 [9] "gzip" rfl (Or.inl rfl) rfl

/-- C4: a body whose decompressed form exceeds the 10,000,000-byte cap still
yields a defined digest: `decode_body` returns the `sha256` of exactly the
first 10,000,000 decompressed bytes, a 32-byte value. -/
theorem decode_body_cap_truncates (Cd : Codec) (body : List Nat) (enc : String)
    (d : List Nat)
    (henc : enc = "gzip" ∨ enc = "deflate")
    (hdec : (if enc = "gzip" then Cd.gzipDecode body else Cd.deflateDecode body).bytes = d)
    (hlen : MAX_BYTES_SIZE_TO_DECOMPRESS < d.length)
    (hsha : ∀ l, (Cd.sha256 l).length = 32) :
    decode_body Cd body (some enc) =
      some (Cd.sha256 (d.take MAX_BYTES_SIZE_TO_DECOMPRESS)) ∧
    ∃ h, decode_body Cd body (some enc) = some h ∧ h.length = 32 := by
  have main : decode_body Cd body (some enc) =
      some (Cd.sha256 (d.take MAX_BYTES_SIZE_TO_DECOMPRESS)) := by
    rcases henc with h | h <;> subst h
    · rw [if_pos rfl] at hdec
      cases hres : Cd.gzipDecode body with
      | ok bytes =>
        rw [hres] at hdec
        simp only [DecodeResult.bytes] at hdec
        simp [decode_body, readTake, hres, hdec]
      | error pre =>
        rw [hres] at hdec
        simp only [DecodeResult.bytes] at hdec
        simp [decode_body, readTake, hres, hdec, Nat.le_of_lt hlen]
    · rw [if_neg (by decide)] at hdec
      cases hres : Cd.deflateDecode body with
      | ok bytes =>
        rw [hres] at hdec
        simp only [DecodeResult.bytes] at hdec
        simp [decode_body, readTake, hres, hdec]
      | error pre =>
        rw [hres] at hdec
        simp only [DecodeResult.bytes] at hdec
        simp [decode_body, readTake, hres, hdec, Nat.le_of_lt hlen]
  exact ⟨main, _, main, hsha _⟩

/-- Witness for C4 at a concrete input: a decoder producing 10,000,001 bytes. -/
theorem decode_body_cap_truncates_witness :
    decode_body Cd4 [] (some "gzip") =
      some (Cd4.sha256 ((List.replicate 10000001 7).take MAX_BYTES_SIZE_TO_DECOMPRESS)) ∧
    ∃ h, decode_body Cd4 [] (some "gzip") = some h ∧ h.length = 32 :=
  decode_body_cap_truncates Cd4 [] "gzip" (List.replicate 10000001 7)
    (Or.inl rfl) rfl
    (by rw [List.length_replicate, MAX_BYTES_SIZE_TO_DECOMPRESS]; decide)
    (fun l => by
      rw [show Cd4.sha256 l = List.replicate 32 0 from rfl, List.length_replicate])

/-- C10: once certificate and tree are both present and base64-decoded (and
the digest computation returns), every semantic verification failure — an
invalid certificate signature, a missing certified-data path, a tree root
digest not matching the certified data, both asset paths absent, or a body
digest mismatch on either looked-up leaf — produces exactly
"Body does not pass verification", and under successful CBOR parses every
rejection carries that identical string; a CBOR decoding failure of the
certificate or tree bytes — and only that — yields the distinct string
"Certificate validation failed: <detail>". -/
theorem validate_error_strings {P C T : Type} (Cd : Codec) (E : VerifyEnv P C T)
    (hd : HeadersData) (cid : P) (path : String) (body : List Nat)
    (cert tree sha : List Nat) (c : C) (t : T)
    (hsha : decode_body Cd body hd.encoding = some sha)
    (hcert : hd.certificate = some (.ok cert))
    (htree : hd.tree = some (.ok tree)) :
    (E.cborCert cert = .ok c → E.cborTree tree = .ok t →
      ((∀ e, E.agentVerify c = .error e →
        validate Cd E hd cid path body =
          some (.error "Body does not pass verification")) ∧
      (∀ e, E.agentVerify c = .ok () → E.lookupCertifiedData c cid = .error e →
        validate Cd E hd cid path body =
          some (.error "Body does not pass verification")) ∧
      (∀ w, E.agentVerify c = .ok () → E.lookupCertifiedData c cid = .ok w →
        w ≠ E.treeDigest t →
        validate Cd E hd cid path body =
          some (.error "Body does not pass verification")) ∧
      (E.agentVerify c = .ok () →
        E.lookupCertifiedData c cid = .ok (E.treeDigest t) →
        E.treeLookup t ["http_assets", path] = none →
        E.treeLookup t ["http_assets", "/index.html"] = none →
        validate Cd E hd cid path body =
          some (.error "Body does not pass verification")) ∧
      (∀ leaf, E.agentVerify c = .ok () →
        E.lookupCertifiedData c cid = .ok (E.treeDigest t) →
        E.treeLookup t ["http_assets", path] = some leaf → sha ≠ leaf →
        validate Cd E hd cid path body =
          some (.error "Body does not pass verification")) ∧
      (∀ leaf, E.agentVerify c = .ok () →
        E.lookupCertifiedData c cid = .ok (E.treeDigest t) →
        E.treeLookup t ["http_assets", path] = none →
        E.treeLookup t ["http_assets", "/index.html"] = some leaf → sha ≠ leaf →
        validate Cd E hd cid path body =
          some (.error "Body does not pass verification")) ∧
      (∀ s, validate Cd E hd cid path body = some (.error s) →
        s = "Body does not pass verification"))) ∧
    (∀ e, E.cborCert cert = .error e →
      validate Cd E hd cid path body =
        some (.error ("Certificate validation failed: " ++ e))) ∧
    (∀ c2 e, E.cborCert cert = .ok c2 → E.cborTree tree = .error e →
      validate Cd E hd cid path body =
        some (.error ("Certificate validation failed: " ++ e))) := by
  refine ⟨?_, ?_, ?_⟩
  · intro hc ht
    have hlift : validate_body E cert tree cid path sha = .ok false →
        validate Cd E hd cid path body =
          some (.error "Body does not pass verification") := by
      intro hfalse
      simp only [validate, hsha, hcert, htree, hfalse]
    refine ⟨?_, ?_, ?_, ?_, ?_, ?_, ?_⟩
    · intro e hv
      apply hlift
      unfold validate_body
      simp only [hc, ht, hv]
    · intro e hv hl
      apply hlift
      unfold validate_body
      simp only [hc, ht, hv, hl]
    · intro w hv hl hw
      apply hlift
      unfold validate_body
      simp only [hc, ht, hv, hl]
      rw [if_pos hw]
    · intro hv hl hp hq
      apply hlift
      unfold validate_body
      simp [hc, ht, hv, hl, hp, hq]
    · intro leaf hv hl hp hne
      apply hlift
      unfold validate_body
      simp [hc, ht, hv, hl, hp, hne]
    · intro leaf hv hl hp hq hne
      apply hlift
      unfold validate_body
      simp [hc, ht, hv, hl, hp, hq, hne]
    · intro s hs
      obtain ⟨b, hb⟩ := validate_body_no_error E cert tree cid path sha c t hc ht
      simp only [validate, hsha, hcert, htree, hb] at hs
      cases b
      · simpa using hs.symm
      · simp at hs
  · intro e he
    simp only [validate, hsha, hcert, htree]
    unfold validate_body
    simp only [he]
  · intro c2 e hc ht
    simp only [validate, hsha, hcert, htree]
    unfold validate_body
    simp only [hc, ht]

/-- Witness for C10 at two concrete inputs: an invalid certificate signature
producing the identical rejection string, and a failing certificate CBOR
parse producing the distinct one. -/
theorem validate_error_strings_witness :
    validate Cd0 E10 hdBoth () "/" [] =
      some (.error "Body does not pass verification") ∧
    validate Cd0 E0 hdBoth () "/" [] =
      some (.error ("Certificate validation failed: " ++ "boom")) :=
  ⟨((validate_error_strings Cd0 E10 hdBoth () "/" [] [] [] [] () ()
      rfl rfl rfl).1 rfl rfl).1 () rfl,
   (validate_error_strings Cd0 E0 hdBoth () "/" [] [] [] [] () ()
      rfl rfl rfl).2.1 "boom" rfl⟩

/-- Lemma: `dupStep` from an absent field stores the incoming result. -/
theorem dupStep_none (b : Except Unit (List Nat)) : dupStep none b = some b := by
  cases b <;> rfl

/-- Lemma: `dupStep` keeps an earlier successful decode, whatever comes later. -/
theorem dupStep_ok (c : List Nat) (b : Except Unit (List Nat)) :
    dupStep (some (.ok c)) b = some (.ok c) := by
  cases b <;> rfl

/-- Lemma: `dupStep` replaces an earlier decode-error with the incoming result. -/
theorem dupStep_error (e : Unit) (b : Except Unit (List Nat)) :
    dupStep (some (.error e)) b = some b := by
  cases b <;> rfl

/-- Folding `dupStep` from a successful decode never changes it. -/
theorem dupStep_fold_ok (c : List Nat) (rs : List (Except Unit (List Nat))) :
    rs.foldl dupStep (some (.ok c)) = some (.ok c) := by
  induction rs with
  | nil => rfl
  | cons r rs ih => rw [List.foldl_cons, dupStep_ok]; exact ih

/-- A leading decode-error does not change what is retained. -/
theorem retained_error_cons (e : Unit) (r2 : Except Unit (List Nat))
    (rs2 : List (Except Unit (List Nat))) :
    retained (.error e :: r2 :: rs2) = retained (r2 :: rs2) := by
  unfold retained
  rw [show List.find? isOkE (Except.error e :: r2 :: rs2) =
      List.find? isOkE (r2 :: rs2) from List.find?_cons_of_neg _ (by simp [isOkE])]
  rw [List.getLast?_cons_cons]

/-- Folding `dupStep` from nothing keeps the first success, else the last
value. -/
theorem dupStep_fold_none (rs : List (Except Unit (List Nat))) :
    rs.foldl dupStep none = retained rs := by
  induction rs with
  | nil => rfl
  | cons r rs ih =>
    cases r with
    | ok b =>
      rw [List.foldl_cons, dupStep_none, dupStep_fold_ok]
      unfold retained
      rw [List.find?_cons_of_pos _ (by rfl)]
    | error e =>
      cases rs with
      | nil => rfl
      | cons r2 rs2 =>
        have h1 : (Except.error e :: r2 :: rs2).foldl dupStep none =
            (r2 :: rs2).foldl dupStep none := by
          simp only [List.foldl_cons, dupStep_none, dupStep_error]
        rw [h1, ih, retained_error_cons]

/-- Lemma: `processField` on an unparsable component is the identity. -/
theorem processField_eq_of_none (b64 : String → Option (List Nat))
    (hd : HeadersData) (f : String) (hp : parseField f.trim = none) :
    processField b64 hd f = hd := by
  unfold processField
  rw [hp]

/-- Lemma: `processField` on a `certificate=` component updates the certificate via
`dupStep`. -/
theorem processField_eq_of_cert (b64 : String → Option (List Nat))
    (hd : HeadersData) (f v : String)
    (hp : parseField f.trim = some ("certificate", v)) :
    processField b64 hd f =
      { hd with certificate := dupStep hd.certificate (decode_hash_tree b64 (some v)) } := by
  unfold processField
  rw [hp]
  simp

/-- Lemma: `processField` on a `tree=` component updates the tree via `dupStep`. -/
theorem processField_eq_of_tree (b64 : String → Option (List Nat))
    (hd : HeadersData) (f v : String)
    (hp : parseField f.trim = some ("tree", v)) :
    processField b64 hd f =
      { hd with tree := dupStep hd.tree (decode_hash_tree b64 (some v)) } := by
  unfold processField
  rw [hp]
  simp

/-- Lemma: `processField` on a component with any other name is the identity. -/
theorem processField_eq_of_other (b64 : String → Option (List Nat))
    (hd : HeadersData) (f n v : String) (hp : parseField f.trim = some (n, v))
    (hn : ¬ n = "certificate") (hn2 : ¬ n = "tree") :
    processField b64 hd f = hd := by
  unfold processField
  simp only [hp, if_neg hn, if_neg hn2]

/-- The certificate field of a `processField` fold is the `dupStep` fold over
the decode results of the `certificate=` components. -/
theorem processField_fold_certificate (b64 : String → Option (List Nat))
    (fields : List String) (hd : HeadersData) :
    (fields.foldl (processField b64) hd).certificate =
      (fields.filterMap fun f =>
        match parseField f.trim with
        | some (n, v) =>
          if n = "certificate" then some (decode_hash_tree b64 (some v)) else none
        | none => none).foldl dupStep hd.certificate := by
  induction fields generalizing hd with
  | nil => rfl
  | cons f fs ih =>
    rw [List.foldl_cons, ih, List.filterMap_cons]
    cases hp : parseField f.trim with
    | none =>
      rw [processField_eq_of_none b64 hd f hp]
    | some nv =>
      obtain ⟨n, v⟩ := nv
      by_cases hn : n = "certificate"
      · subst hn
        rw [processField_eq_of_cert b64 hd f v hp]
        simp
      · by_cases hn2 : n = "tree"
        · subst hn2
          rw [processField_eq_of_tree b64 hd f v hp]
          simp
        · rw [processField_eq_of_other b64 hd f n v hp hn hn2]
          simp [hn]

/-- The tree field of a `processField` fold is the `dupStep` fold over the
decode results of the `tree=` components. -/
theorem processField_fold_tree (b64 : String → Option (List Nat))
    (fields : List String) (hd : HeadersData) :
    (fields.foldl (processField b64) hd).tree =
      (fields.filterMap fun f =>
        match parseField f.trim with
        | some (n, v) =>
          if n = "tree" then some (decode_hash_tree b64 (some v)) else none
        | none => none).foldl dupStep hd.tree := by
  induction fields generalizing hd with
  | nil => rfl
  | cons f fs ih =>
    rw [List.foldl_cons, ih, List.filterMap_cons]
    cases hp : parseField f.trim with
    | none =>
      rw [processField_eq_of_none b64 hd f hp]
    | some nv =>
      obtain ⟨n, v⟩ := nv
      by_cases hn2 : n = "tree"
      · subst hn2
        rw [processField_eq_of_tree b64 hd f v hp]
        simp
      · by_cases hn : n = "certificate"
        · subst hn
          rw [processField_eq_of_cert b64 hd f v hp]
          simp
        · rw [processField_eq_of_other b64 hd f n v hp hn hn2]
          simp [hn2]

/-- C5: within one `IC-Certificate` header value, for the sequence of
`certificate=` (respectively `tree=`) component decode results, the first
successfully decoded value is retained — a later success never overrides an
earlier success — and a later value replaces an earlier decode-error (when no
success exists the last value is kept). -/
theorem extract_headers_data_dup_policy (b64 : String → Option (List Nat))
    (v : String) :
    (extract_headers_data b64 [("IC-Certificate", v)]).certificate =
      retained (certComponents b64 v) ∧
    (extract_headers_data b64 [("IC-Certificate", v)]).tree =
      retained (treeComponents b64 v) := by
  have hhdr : extract_headers_data b64 [("IC-Certificate", v)] =
      (v.splitOn ",").foldl (processField b64) ⟨none, none, none⟩ := by
    unfold extract_headers_data
    rw [List.foldl_cons, List.foldl_nil]
    unfold processHeader
    rw [if_pos (show eq_ignore_ascii_case ("IC-Certificate", v).1 "IC-CERTIFICATE" = true
      from rfl)]
  constructor
  · rw [hhdr]
    unfold certComponents
    rw [processField_fold_certificate]
    exact dupStep_fold_none _
  · rw [hhdr]
    unfold treeComponents
    rw [processField_fold_tree]
    exact dupStep_fold_none _

/-- Witness for C5 at a concrete header value. -/
theorem extract_headers_data_dup_policy_witness :
    (extract_headers_data b64d
        [("IC-Certificate", "certificate=:AA:")]).certificate =
      retained (certComponents b64d "certificate=:AA:") ∧
    (extract_headers_data b64d
        [("IC-Certificate", "certificate=:AA:")]).tree =
      retained (treeComponents b64d "certificate=:AA:") :=
  extract_headers_data_dup_policy b64d "certificate=:AA:"

/-- The callback loop performs at most `calls + fuel` invocations. -/
theorem streamGo_calls_le {T : Type} (cb : T → Except Unit (List Nat × Option T))
    (sendOk : Nat → Bool) (fuel : Nat) :
    ∀ (t : T) (calls : Nat) (sent : List (List Nat)),
      (streamGo cb sendOk fuel t calls sent).2.1 ≤ calls + fuel := by
  induction fuel with
  | zero => intro t calls sent; simp [streamGo]
  | succ n ih =>
    intro t calls sent
    cases hcb : cb t with
    | error e => simp [streamGo, hcb]
    | ok bt =>
      obtain ⟨body, token⟩ := bt
      by_cases hs : sendOk sent.length = true
      · cases token with
        | some nt =>
          have h := ih nt (calls + 1) (sent ++ [body])
          simp only [streamGo, hcb, hs, if_true]
          omega
        | none =>
          simp only [streamGo, hcb, hs, if_true]
          omega
      · simp only [streamGo, hcb]
        rw [if_neg hs]
        show calls + 1 ≤ calls + (n + 1)
        omega

/-- When every callback carries a next token and every send succeeds, the
loop runs its whole fuel down and aborts, having sent one chunk per call. -/
theorem streamGo_always_token {T : Type} (cb : T → Except Unit (List Nat × Option T))
    (sendOk : Nat → Bool)
    (hcb : ∀ u, ∃ b nt, cb u = .ok (b, some nt))
    (hsend : ∀ n, sendOk n = true) (fuel : Nat) :
    ∀ (t : T) (calls : Nat) (sent : List (List Nat)),
      (streamGo cb sendOk fuel t calls sent).2.1 = calls + fuel ∧
      (streamGo cb sendOk fuel t calls sent).2.2 = .aborted ∧
      (streamGo cb sendOk fuel t calls sent).1.length = sent.length + fuel := by
  induction fuel with
  | zero => intro t calls sent; simp [streamGo]
  | succ n ih =>
    intro t calls sent
    obtain ⟨b, nt, hc⟩ := hcb t
    simp only [streamGo, hc, hsend sent.length, if_true]
    obtain ⟨h1, h2, h3⟩ := ih nt (calls + 1) (sent ++ [b])
    refine ⟨?_, h2, ?_⟩
    · rw [h1]; omega
    · rw [h3]
      simp only [List.length_append, List.length_cons, List.length_nil]
      omega

/-- C6: the streaming assembler invokes the callback at most 1000 times; and
when every callback response carries a next token (and the client accepts
every chunk), exactly 1000 invocations are issued, the body stream is then
aborted, and the 1000 chunks already sent are kept. -/
theorem streamLoop_bounded {T : Type} (cb : T → Except Unit (List Nat × Option T))
    (sendOk : Nat → Bool) (token : T) :
    (streamLoop cb sendOk token).2.1 ≤ 1000 ∧
    ((∀ u, ∃ b nt, cb u = .ok (b, some nt)) → (∀ n, sendOk n = true) →
      (streamLoop cb sendOk token).2.1 = 1000 ∧
      (streamLoop cb sendOk token).2.2 = .aborted ∧
      (streamLoop cb sendOk token).1.length = 1000) := by
  constructor
  · have h := streamGo_calls_le cb sendOk MAX_HTTP_REQUEST_STREAM_CALLBACK_CALL_COUNT
      token 0 []
    unfold streamLoop
    unfold MAX_HTTP_REQUEST_STREAM_CALLBACK_CALL_COUNT at h ⊢
    omega
  · intro hcb hsend
    have h := streamGo_always_token cb sendOk hcb hsend
      MAX_HTTP_REQUEST_STREAM_CALLBACK_CALL_COUNT token 0 []
    unfold streamLoop
    unfold MAX_HTTP_REQUEST_STREAM_CALLBACK_CALL_COUNT at h ⊢
    obtain ⟨h1, h2, h3⟩ := h
    exact ⟨by omega, h2, by simp at h3; omega⟩

/-- Witness for C6 at a concrete always-token callback. -/
theorem streamLoop_bounded_witness :
    (streamLoop cbAll (fun _ => true) ()).2.1 = 1000 ∧
    (streamLoop cbAll (fun _ => true) ()).2.2 = .aborted ∧
    (streamLoop cbAll (fun _ => true) ()).1.length = 1000 :=
  (streamLoop_bounded cbAll (fun _ => true) ()).2
    (fun _ => ⟨[7], (), rfl⟩) (fun _ => rfl)

/-- The Rust slice-pattern fallback of `resolve_canister_id_from_hostname`
agrees with the spec-side `hostFallbackSpec`. -/
theorem fallback_eq {P : Type} (E : ResolveEnv P) (labels : List String) :
    (match labels.reverse with
     | "localhost" :: maybe_canister_id :: _ => E.fromText maybe_canister_id
     | _ =>
       match labels with
       | maybe_canister_id :: _ => E.fromText maybe_canister_id
       | [] => none) = hostFallbackSpec E labels := by
  split
  case _ m rest hrev =>
    have hl : labels = (rest.reverse ++ [m]) ++ ["localhost"] := by
      have h0 := congrArg List.reverse hrev
      rw [List.reverse_reverse] at h0
      rw [h0]
      simp
    rw [hl]
    unfold hostFallbackSpec
    rw [if_pos ⟨List.getLast?_concat _, by simp [List.dropLast_concat]⟩]
    rw [List.dropLast_concat, List.getLast?_concat]
  case _ hno =>
    have hcond : ¬(labels.getLast? = some "localhost" ∧ labels.dropLast ≠ []) := by
      rintro ⟨h1, h2⟩
      rw [← List.head?_reverse] at h1
      cases hr : labels.reverse with
      | nil => rw [hr] at h1; exact Option.noConfusion h1
      | cons x r =>
        rw [hr] at h1
        have hx : x = "localhost" := by simpa using h1
        cases r with
        | nil =>
          have hsing : labels = ["localhost"] := by
            have h0 := congrArg List.reverse hr
            rw [List.reverse_reverse] at h0
            rw [h0, hx]
            rfl
          rw [hsing] at h2
          exact h2 rfl
        | cons y r2 => exact hno y r2 (by rw [hr, hx])
    unfold hostFallbackSpec
    rw [if_neg hcond]
    cases labels with
    | nil => rfl
    | cons m rest => rfl

/-- Lemma: `resolve_canister_id_from_hostname` is configured lookup first, then the
spec-side fallback. -/
theorem resolve_from_hostname_eq {P : Type} (E : ResolveEnv P) (hostname : String)
    (dns : List String → Option P) :
    resolve_canister_id_from_hostname E hostname dns =
      (match E.uriHost hostname with
       | none => none
       | some h =>
         (dns (h.splitOn ".")).orElse fun _ => hostFallbackSpec E (h.splitOn ".")) := by
  unfold resolve_canister_id_from_hostname
  cases hu : E.uriHost hostname with
  | none => rfl
  | some h =>
    show (match dns (h.splitOn ".") with
          | some principal => some principal
          | none =>
            match (h.splitOn ".").reverse with
            | "localhost" :: maybe_canister_id :: _ => E.fromText maybe_canister_id
            | _ =>
              match h.splitOn "." with
              | maybe_canister_id :: _ => E.fromText maybe_canister_id
              | [] => none) =
        (dns (h.splitOn ".")).orElse fun _ => hostFallbackSpec E (h.splitOn ".")
    cases hdns : dns (h.splitOn ".") with
    | some p => rfl
    | none => exact fallback_eq E (h.splitOn ".")

/-- The host-header source of `resolve_canister_id` matches its spec-side
description. -/
theorem hostSource_eq {P : Type} (E : ResolveEnv P)
    (dns : List String → Option P) (request : Req) :
    (match request.hostHeader with
     | some (some host) => resolve_canister_id_from_hostname E host dns
     | _ => none) = hostSourceSpec E dns request := by
  unfold hostSourceSpec
  cases request.hostHeader with
  | none => rfl
  | some hv =>
    cases hv with
    | none => rfl
    | some host => exact resolve_from_hostname_eq E host dns

/-- C7: `resolve_canister_id` tries the Host header (configured lookup, then
the hardcoded localhost fallback), then the `canisterId` query parameter of
the request URI, then the query of the Referer header, first success winning;
invalid parses fall through silently, and the result is none iff all three
sources fail. -/
theorem resolve_canister_id_order {P : Type} (E : ResolveEnv P)
    (dns : List String → Option P) (request : Req) :
    resolve_canister_id E dns request = resolve_canister_id_spec E dns request ∧
    (resolve_canister_id E dns request = none ↔
      hostSourceSpec E dns request = none ∧ uriSourceSpec E request = none ∧
      refererSourceSpec E request = none) := by
  have hmain : resolve_canister_id E dns request = resolve_canister_id_spec E dns request := by
    unfold resolve_canister_id resolve_canister_id_spec uriSourceSpec refererSourceSpec
    rw [hostSource_eq E dns request]
    cases hs : hostSourceSpec E dns request with
    | some p => rfl
    | none =>
      cases hu : resolve_canister_id_from_uri E request.uri with
      | some p => rfl
      | none =>
        cases hrf : request.refererHeader with
        | none => rfl
        | some rv =>
          cases rv with
          | none => rfl
          | some referer =>
            show (match E.parseUri referer with
                  | some referer_uri => resolve_canister_id_from_uri E referer_uri
                  | none => none) =
                (E.parseUri referer).bind (resolve_canister_id_from_uri E)
            cases E.parseUri referer with
            | none => rfl
            | some u => rfl
  refine ⟨hmain, ?_⟩
  rw [hmain]
  unfold resolve_canister_id_spec
  cases hostSourceSpec E dns request <;> cases uriSourceSpec E request <;>
    cases refererSourceSpec E request <;> simp [Option.orElse]

/-- Witness for C7 at a concrete request. -/
theorem resolve_canister_id_order_witness :
    resolve_canister_id E7 (fun _ => none) req7 =
      resolve_canister_id_spec E7 (fun _ => none) req7 ∧
    (resolve_canister_id E7 (fun _ => none) req7 = none ↔
      hostSourceSpec E7 (fun _ => none) req7 = none ∧
      uriSourceSpec E7 req7 = none ∧ refererSourceSpec E7 req7 = none) :=
  resolve_canister_id_order E7 (fun _ => none) req7

/-- C8: for every canister-path request (not `/api/`, not a proxied `/_/`
path) with `fetch_root_key` enabled, the root key is fetched exactly once
before forwarding, a failed fetch yields status 500 with the fixed body
"Unable to fetch root key", and a successful fetch hands over to
`forward_request`. -/
theorem handle_request_fetch_root_key (request_uri_path : String)
    (proxy_url : Option String) (fetchOk : Bool)
    (apiResult proxyResult forwardResult : Nat × String)
    (hapi : starts_with request_uri_path "/api/" = false)
    (hproxy : (starts_with request_uri_path "/_/" &&
      !starts_with request_uri_path "/_/raw") = false) :
    (handle_request request_uri_path proxy_url true fetchOk
        apiResult proxyResult forwardResult).2 = 1 ∧
    (fetchOk = false →
      (handle_request request_uri_path proxy_url true fetchOk
          apiResult proxyResult forwardResult).1 =
        (500, "Unable to fetch root key")) ∧
    (fetchOk = true →
      (handle_request request_uri_path proxy_url true fetchOk
          apiResult proxyResult forwardResult).1 = forwardResult) := by
  cases fetchOk <;>
    simp [handle_request, hapi, hproxy, unable_to_fetch_root_key]

/-- Witness for C8 at a concrete canister-path request whose fetch fails. -/
theorem handle_request_fetch_root_key_witness :
    (handle_request "/x" none true false (200, "a") (200, "b") (200, "c")).2 = 1 ∧
    (handle_request "/x" none true false (200, "a") (200, "b") (200, "c")).1 =
      (500, "Unable to fetch root key") :=
  have h := handle_request_fetch_root_key "/x" none false (200, "a") (200, "b")
    (200, "c") rfl rfl
  ⟨h.1, h.2.1 rfl⟩

/-- Inside a map that rewrites every `k`-entry to `(k, [v])`, `find?` for key
`k` yields `(k, [v])` as soon as some entry has key `k`. -/
theorem find?_map_replace (k v : String) (rest : HeaderMap)
    (h : rest.any (fun kv => kv.1 = k) = true) :
    (rest.map fun kv => if kv.1 = k then (k, [v]) else kv).find?
        (fun kv => kv.1 = k) = some (k, [v]) := by
  induction rest with
  | nil => simp at h
  | cons kv rest ih =>
    rw [List.map_cons]
    by_cases hk : kv.1 = k
    · rw [if_pos hk]
      rw [List.find?_cons_of_pos _ (by simp)]
    · rw [if_neg hk]
      rw [List.find?_cons_of_neg _ (by simp [hk])]
      apply ih
      simpa [hk] using h

/-- After `insertH hm k v`, looking up `k` yields exactly `[v]`. -/
theorem insertH_lookup_self (hm : HeaderMap) (k v : String) :
    lookupH (insertH hm k v) k = some [v] := by
  unfold insertH
  by_cases h : hm.any (fun kv => kv.1 = k) = true
  · rw [if_pos h]
    unfold lookupH
    rw [find?_map_replace k v hm h]
    rfl
  · rw [if_neg h]
    unfold lookupH
    rw [List.find?_append]
    rw [show hm.find? (fun kv => kv.1 = k) = none from List.find?_eq_none.mpr ?_]
    · rw [List.find?_cons_of_pos _ (by simp)]
      rfl
    · intro kv hkv hdec
      apply h
      rw [List.any_eq_true]
      exact ⟨kv, hkv, hdec⟩

/-- Lemma: `insertH` at key `k` does not change lookups at other keys. -/
theorem insertH_lookup_other (hm : HeaderMap) (k v q : String) (hq : q ≠ k) :
    lookupH (insertH hm k v) q = lookupH hm q := by
  unfold insertH
  by_cases h : hm.any (fun kv => kv.1 = k) = true
  · rw [if_pos h]
    unfold lookupH
    clear h
    induction hm with
    | nil => rfl
    | cons kv rest ih =>
      rw [List.map_cons]
      by_cases hk : kv.1 = k
      · rw [if_pos hk]
        rw [List.find?_cons_of_neg _ (by simp [Ne.symm hq])]
        rw [List.find?_cons_of_neg _ (by simp [hk, Ne.symm hq])]
        exact ih
      · rw [if_neg hk]
        by_cases hqq : kv.1 = q
        · rw [List.find?_cons_of_pos _ (by simp [hqq]),
            List.find?_cons_of_pos _ (by simp [hqq])]
        · rw [List.find?_cons_of_neg _ (by simp [hqq]),
            List.find?_cons_of_neg _ (by simp [hqq])]
          exact ih
  · rw [if_neg h]
    unfold lookupH
    rw [List.find?_append]
    rw [List.find?_cons_of_neg _ (by simp [Ne.symm hq])]
    cases hm.find? (fun kv => kv.1 = q) <;> rfl

/-- Folding repeated `insertH` over a pair list: the lookup of `k` yields its
last value in the list, else whatever the initial map holds. -/
theorem foldl_insert_lookup (ps : List (String × String)) (init : HeaderMap)
    (k : String) :
    lookupH (ps.foldl (fun r kv => insertH r kv.1 kv.2) init) k =
      (match lastValueOf ps k with
       | some v => some [v]
       | none => lookupH init k) := by
  induction ps using List.reverseRecOn with
  | nil => rfl
  | append_singleton ps kv ih =>
    rw [List.foldl_append, List.foldl_cons, List.foldl_nil]
    by_cases hk : kv.1 = k
    · rw [hk, insertH_lookup_self]
      unfold lastValueOf
      rw [List.filter_append]
      rw [show List.filter (fun kv2 => kv2.1 = k) [kv] = [kv] from by simp [hk]]
      rw [List.getLast?_concat]
      rfl
    · rw [insertH_lookup_other _ _ _ _ (Ne.symm hk), ih]
      unfold lastValueOf
      rw [List.filter_append]
      rw [show List.filter (fun kv2 => kv2.1 = k) [kv] = [] from by simp [hk]]
      rw [List.append_nil]

/-- The hop-skipping fold of `remove_hop_headers` equals the plain insert
fold over the non-hop pairs. -/
theorem foldl_hop_filter (ps : List (String × String)) (init : HeaderMap) :
    ps.foldl (fun r kv => if is_hop_header kv.1 then r else insertH r kv.1 kv.2)
        init =
      (ps.filter fun kv => !is_hop_header kv.1).foldl
        (fun r kv => insertH r kv.1 kv.2) init := by
  induction ps generalizing init with
  | nil => rfl
  | cons kv ps ih =>
    by_cases hk : is_hop_header kv.1 = true <;>
      simp [List.foldl_cons, List.filter_cons, hk, ih]

/-- Keys of `iterPairs` pairs come from the map's keys. -/
theorem iterPairs_key_mem (hm : HeaderMap) (kv : String × String)
    (h : kv ∈ iterPairs hm) : kv.1 ∈ hm.map Prod.fst := by
  unfold iterPairs at h
  rw [List.mem_flatMap] at h
  obtain ⟨e, he, hv⟩ := h
  rw [List.mem_map] at hv
  obtain ⟨v, hv2, hveq⟩ := hv
  rw [List.mem_map]
  exact ⟨e, he, by rw [← hveq]⟩

/-- With nodup keys, the `k`-keyed pairs of `iterPairs` are exactly the
values of the `k` entry, in order. -/
theorem iterPairs_filter_key (hm : HeaderMap) (k : String) (vs : List String)
    (hnodup : (hm.map Prod.fst).Nodup) (hmem : lookupH hm k = some vs) :
    (iterPairs hm).filter (fun kv => kv.1 = k) = vs.map fun v => (k, v) := by
  induction hm with
  | nil => simp [lookupH] at hmem
  | cons e rest ih =>
    have hsplit : iterPairs (e :: rest) =
        (e.2.map fun v => (e.1, v)) ++ iterPairs rest := by
      unfold iterPairs
      rw [List.flatMap_cons]
    rw [List.map_cons, List.nodup_cons] at hnodup
    rw [hsplit, List.filter_append]
    by_cases hk : e.1 = k
    · have hvs : e.2 = vs := by
        unfold lookupH at hmem
        rw [List.find?_cons_of_pos _ (by simp [hk])] at hmem
        simpa using hmem
      have hall : (e.2.map fun v => (e.1, v)).filter (fun kv => kv.1 = k) =
          e.2.map fun v => (e.1, v) := by
        rw [List.filter_eq_self]
        intro a ha
        rw [List.mem_map] at ha
        obtain ⟨v, hv, hveq⟩ := ha
        rw [← hveq]
        simp [hk]
      have hrest : (iterPairs rest).filter (fun kv => kv.1 = k) = [] := by
        rw [List.filter_eq_nil_iff]
        intro a ha hdec
        have hmemk := iterPairs_key_mem rest a ha
        have ha1 : a.1 = k := of_decide_eq_true hdec
        rw [ha1, ← hk] at hmemk
        exact hnodup.1 hmemk
      rw [hall, hrest, List.append_nil, hvs, hk]
    · have hmem2 : lookupH rest k = some vs := by
        unfold lookupH at hmem ⊢
        rw [List.find?_cons_of_neg _ (by simp [hk])] at hmem
        exact hmem
      have hzero : (e.2.map fun v => (e.1, v)).filter (fun kv => kv.1 = k) = [] := by
        rw [List.filter_eq_nil_iff]
        intro a ha hdec
        rw [List.mem_map] at ha
        obtain ⟨v, hv, hveq⟩ := ha
        apply hk
        have h1 : a.1 = e.1 := by rw [← hveq]
        rw [← h1]
        exact of_decide_eq_true hdec
      rw [hzero, List.nil_append]
      exact ih hnodup.2 hmem2

/-- Looking up a hop-by-hop name after `remove_hop_headers` yields nothing. -/
theorem remove_hop_lookup_hop (hm : HeaderMap) (k : String)
    (hk : is_hop_header k = true) : lookupH (remove_hop_headers hm) k = none := by
  unfold remove_hop_headers
  rw [foldl_hop_filter, foldl_insert_lookup]
  have hlast : lastValueOf ((iterPairs hm).filter fun kv => !is_hop_header kv.1) k =
      none := by
    unfold lastValueOf
    rw [show ((iterPairs hm).filter fun kv => !is_hop_header kv.1).filter
        (fun kv => kv.1 = k) = [] from ?_]
    · rfl
    · rw [List.filter_filter, List.filter_eq_nil_iff]
      intro a ha hdec
      simp at hdec
      obtain ⟨h1, h2⟩ := hdec
      rw [h1, hk] at h2
      simp at h2
  rw [hlast]
  rfl

/-- Looking up a non-hop name with entry `(k, vs)` after
`remove_hop_headers` yields the singleton of the last value. -/
theorem remove_hop_lookup_entry (hm : HeaderMap) (k : String) (vs : List String)
    (hnodup : (hm.map Prod.fst).Nodup) (hk : is_hop_header k = false)
    (hmem : lookupH hm k = some vs) :
    lookupH (remove_hop_headers hm) k = vs.getLast?.map fun v => [v] := by
  unfold remove_hop_headers
  rw [foldl_hop_filter, foldl_insert_lookup]
  have hfilter : ((iterPairs hm).filter fun kv => !is_hop_header kv.1).filter
      (fun kv => kv.1 = k) = vs.map fun v => (k, v) := by
    rw [List.filter_filter]
    rw [List.filter_congr (fun a ha => ?_)]
    · exact iterPairs_filter_key hm k vs hnodup hmem
    · by_cases hak : a.1 = k
      · simp [hak, hk]
      · simp [hak]
  have hlast : lastValueOf ((iterPairs hm).filter fun kv => !is_hop_header kv.1) k =
      vs.getLast? := by
    unfold lastValueOf
    rw [hfilter, List.getLast?_map]
    cases vs.getLast? with
    | none => rfl
    | some v => rfl
  rw [hlast]
  cases vs.getLast? with
  | none => rfl
  | some v => rfl

/-- Looking up a name absent from the request after `remove_hop_headers`
yields nothing. -/
theorem remove_hop_lookup_absent (hm : HeaderMap) (k : String)
    (hmem : lookupH hm k = none) :
    lookupH (remove_hop_headers hm) k = none := by
  unfold remove_hop_headers
  rw [foldl_hop_filter, foldl_insert_lookup]
  have hfind : hm.find? (fun kv => kv.1 = k) = none := by
    unfold lookupH at hmem
    cases hf : hm.find? (fun kv => kv.1 = k) with
    | none => rfl
    | some a => rw [hf] at hmem; exact Option.noConfusion hmem
  have hlast : lastValueOf ((iterPairs hm).filter fun kv => !is_hop_header kv.1) k =
      none := by
    unfold lastValueOf
    rw [show ((iterPairs hm).filter fun kv => !is_hop_header kv.1).filter
        (fun kv => kv.1 = k) = [] from ?_]
    · rfl
    · rw [List.filter_filter, List.filter_eq_nil_iff]
      intro a ha hdec
      simp at hdec
      obtain ⟨h1, h2⟩ := hdec
      have hmemk := iterPairs_key_mem hm a ha
      rw [h1] at hmemk
      rw [List.mem_map] at hmemk
      obtain ⟨e, he, heq⟩ := hmemk
      have := List.find?_eq_none.mp hfind e he
      simp [heq] at this
  rw [hlast]
  rfl

/-- C9 counterexample: a header name carried with two values is not
forwarded unchanged by the reverse-proxy path — only its last value
survives. -/
theorem create_proxied_request_counterexample :
    lookupH [("x-custom", ["1", "2"])] "x-custom" = some ["1", "2"] ∧
    lookupH (create_proxied_request "9.9.9.9" [("x-custom", ["1", "2"])])
        "x-custom" = some ["2"] ∧
    some ["2"] ≠ some ["1", "2"] := by
  refine ⟨rfl, rfl, by decide⟩

/-- C9 amended: on the reverse-proxy path the outbound headers contain no
hop-by-hop name; every other incoming name keeps exactly its last value (so
single-valued headers are forwarded unchanged) except `x-forwarded-for`,
which is appended with the client IP (or created from it); names absent from
the incoming request stay absent. Header names are unique in a `hyper`
header map (`hnodup`). -/
theorem create_proxied_request_headers (hm : HeaderMap) (ip : String)
    (hnodup : (hm.map Prod.fst).Nodup) :
    (∀ k, is_hop_header k = true →
      lookupH (create_proxied_request ip hm) k = none) ∧
    (∀ k vs, is_hop_header k = false → k ≠ "x-forwarded-for" →
      lookupH hm k = some vs →
      lookupH (create_proxied_request ip hm) k = vs.getLast?.map fun v => [v]) ∧
    (∀ k, k ≠ "x-forwarded-for" → lookupH hm k = none →
      lookupH (create_proxied_request ip hm) k = none) ∧
    (lookupH hm "x-forwarded-for" = none →
      lookupH (create_proxied_request ip hm) "x-forwarded-for" = some [ip]) ∧
    (∀ vs v, lookupH hm "x-forwarded-for" = some vs → vs.getLast? = some v →
      lookupH (create_proxied_request ip hm) "x-forwarded-for" =
        some [v ++ ", " ++ ip]) := by
  have hstep : ∀ q, q ≠ "x-forwarded-for" →
      lookupH (create_proxied_request ip hm) q =
        lookupH (remove_hop_headers hm) q := by
    intro q hq
    show lookupH
        (match (lookupH (remove_hop_headers hm) "x-forwarded-for").bind List.head? with
         | none => insertH (remove_hop_headers hm) "x-forwarded-for" ip
         | some old =>
           insertH (remove_hop_headers hm) "x-forwarded-for" (old ++ ", " ++ ip)) q =
      lookupH (remove_hop_headers hm) q
    cases (lookupH (remove_hop_headers hm) "x-forwarded-for").bind List.head? with
    | none => exact insertH_lookup_other _ _ _ _ hq
    | some old => exact insertH_lookup_other _ _ _ _ hq
  refine ⟨?_, ?_, ?_, ?_, ?_⟩
  · intro k hk
    have hkx : k ≠ "x-forwarded-for" := by
      intro he
      rw [he] at hk
      exact absurd hk (by decide)
    rw [hstep k hkx]
    exact remove_hop_lookup_hop hm k hk
  · intro k vs hk hkx hmem
    rw [hstep k hkx]
    exact remove_hop_lookup_entry hm k vs hnodup hk hmem
  · intro k hkx hmem
    rw [hstep k hkx]
    exact remove_hop_lookup_absent hm k hmem
  · intro hmem
    have h0 : lookupH (remove_hop_headers hm) "x-forwarded-for" = none :=
      remove_hop_lookup_absent hm _ hmem
    show lookupH
        (match (lookupH (remove_hop_headers hm) "x-forwarded-for").bind List.head? with
         | none => insertH (remove_hop_headers hm) "x-forwarded-for" ip
         | some old =>
           insertH (remove_hop_headers hm) "x-forwarded-for" (old ++ ", " ++ ip))
        "x-forwarded-for" = some [ip]
    rw [h0]
    show lookupH (insertH (remove_hop_headers hm) "x-forwarded-for" ip)
        "x-forwarded-for" = some [ip]
    exact insertH_lookup_self _ _ _
  · intro vs v hmem hlast
    have h0 : lookupH (remove_hop_headers hm) "x-forwarded-for" =
        vs.getLast?.map fun v => [v] :=
      remove_hop_lookup_entry hm _ vs hnodup (by decide) hmem
    rw [hlast] at h0
    show lookupH
        (match (lookupH (remove_hop_headers hm) "x-forwarded-for").bind List.head? with
         | none => insertH (remove_hop_headers hm) "x-forwarded-for" ip
         | some old =>
           insertH (remove_hop_headers hm) "x-forwarded-for" (old ++ ", " ++ ip))
        "x-forwarded-for" = some [v ++ ", " ++ ip]
    rw [h0]
    show lookupH
        (insertH (remove_hop_headers hm) "x-forwarded-for" (v ++ ", " ++ ip))
        "x-forwarded-for" = some [v ++ ", " ++ ip]
    exact insertH_lookup_self _ _ _

/-- Witness for the amended C9 at a concrete request. -/
theorem create_proxied_request_headers_witness :
    lookupH (create_proxied_request "1.2.3.4"
        [("connection", ["close"]), ("x-custom", ["1"])]) "connection" = none ∧
    lookupH (create_proxied_request "1.2.3.4"
        [("connection", ["close"]), ("x-custom", ["1"])]) "x-custom" =
      (["1"].getLast?).map (fun v => [v]) ∧
    lookupH (create_proxied_request "1.2.3.4"
        [("connection", ["close"]), ("x-custom", ["1"])]) "x-forwarded-for" =
      some ["1.2.3.4"] :=
  have h := create_proxied_request_headers
    [("connection", ["close"]), ("x-custom", ["1"])] "1.2.3.4" (by decide)
  ⟨h.1 "connection" rfl,
   h.2.1 "x-custom" ["1"] rfl (by decide) rfl,
   h.2.2.2.1 rfl⟩

end IcxProxy
